import Mathlib

/-!
# Verification development for the defect-collector pipeline

Shallow embedding of the repository's core components:
Python dynamic values (`PyVal`), the LLM extraction schema validation
(`src/nlp/extractor_llm.py`), rule extraction (`src/nlp/extractor_rules.py`),
text normalization (`src/preprocessing/clean.py`), the three platform
collectors (`src/collectors/`), the storage gateway
(`src/storage/mysql_client.py`) and the pipeline runner
(`src/pipeline/pipeline_runner.py`).

Modelling conventions:
* Python strings are Lean `String`s; character-level operations work on
  `String.data` (a `List Char`).  The embedding models `\n`-separated text
  (Python `splitlines` additionally splits on rarer control separators) and
  the ASCII fragment of Python's unicode-aware `\w`, `\s`, `str.lower()` and
  `str.strip()`; all repository string constants are ASCII, so these agree
  on the data the code manipulates.
* Timestamps are modelled already parsed, as `Int` values; the collectors
  compare parsed `created_at` values exactly as the code compares
  `datetime` objects.
* External collaborators (the platform HTTP APIs, the MySQL server, the
  LLM endpoint) are modelled as oracle inputs: a page function
  `Nat → List RawItem`, an abstract table state, and a `ModelOutcome`.
-/

namespace DefectCollector

/-! ## Python runtime values -/

/-- Model of a Python runtime value as it appears in the JSON-ish dicts the
pipeline passes around (None, strings, ints, bools, lists). -/
inductive PyVal where
  | none : PyVal
  | str : String → PyVal
  | int : Int → PyVal
  | bool : Bool → PyVal
  | list : List PyVal → PyVal

/-- Python truthiness (`bool(x)`): None, `""`, 0, False and `[]` are falsy. -/
def PyVal.truthy : PyVal → Bool
  | .none => false
  | .str s => !(s == "")
  | .int n => !(n == 0)
  | .bool b => b
  | .list l => !l.isEmpty

/-- Python `a or b`: `a` when truthy, else `b`. -/
def pyOr (a b : PyVal) : PyVal := if a.truthy then a else b

/-- `isinstance(v, list)`. -/
def PyVal.isList : PyVal → Bool
  | .list _ => true
  | _ => false

/-- `isinstance(v, str)`. -/
def PyVal.isStr : PyVal → Bool
  | .str _ => true
  | _ => false

mutual
/-- Python `repr(v)` (string escaping inside `repr` of a `str` is not
modelled; the repository never inspects these reprs). -/
def PyVal.pyRepr : PyVal → String
  | .none => "None"
  | .str s => "'" ++ s ++ "'"
  | .int n => toString n
  | .bool b => if b then "True" else "False"
  | .list l => "[" ++ PyVal.reprJoin l ++ "]"

/-- `", ".join(repr(x) for x in l)`, the element rendering used by
`str`/`repr` of a Python list. -/
def PyVal.reprJoin : List PyVal → String
  | [] => ""
  | [x] => x.pyRepr
  | x :: y :: xs => x.pyRepr ++ ", " ++ PyVal.reprJoin (y :: xs)
end

/-- Python `str(v)`: like `repr` except that a string is returned as-is. -/
def PyVal.pyStr : PyVal → String
  | .str s => s
  | v => v.pyRepr

/-! ## Python dicts (insertion-ordered association lists) -/

/-- A Python dict with string keys, as an insertion-ordered association
list with unique keys. -/
abbrev PyDict := List (String × PyVal)

/-- Lookup: `d[k]` as an `Option`. -/
def dictGet (d : PyDict) (k : String) : Option PyVal :=
  (d.find? (fun p => p.1 == k)).map (fun p => p.2)

/-- Python `d.get(k)` (one-argument form): `None` when the key is absent. -/
def pyGet1 (d : PyDict) (k : String) : PyVal := (dictGet d k).getD .none

/-- Python `d.get(k, dflt)`: the stored value (even if `None`) when the key
is present, else `dflt`. -/
def pyGet2 (d : PyDict) (k : String) (dflt : PyVal) : PyVal :=
  (dictGet d k).getD dflt

/-- `list(d.keys())`. -/
def dictKeys (d : PyDict) : List String := d.map (fun p => p.1)

/-- Python `d[k] = v`: update in place when the key exists (preserving
insertion order), else append. -/
def dictSet (d : PyDict) (k : String) (v : PyVal) : PyDict :=
  if (d.find? (fun p => p.1 == k)).isSome then
    d.map (fun p => if p.1 == k then (k, v) else p)
  else d ++ [(k, v)]

/-! ## Python string helpers (ASCII fragment) -/

/-- ASCII fragment of Python's `str.isspace` character set / regex `\s`. -/
def isPySpace (c : Char) : Bool :=
  c == ' ' || c == '\t' || c == '\n' || c == '\r' || c == '\x0b' || c == '\x0c'

/-- ASCII fragment of regex `\w`: alphanumerics and underscore. -/
def isWordChar (c : Char) : Bool := c.isAlphanum || c == '_'

/-- Python `s.strip()` on a character list. -/
def pyStripL (l : List Char) : List Char :=
  ((l.dropWhile isPySpace).reverse.dropWhile isPySpace).reverse

/-- Python `s.strip()`. -/
def pyStrip (s : String) : String := String.mk (pyStripL s.data)

/-- Python `s.strip(chars)` on a character list. -/
def pyStripCharsL (cs : List Char) (l : List Char) : List Char :=
  ((l.dropWhile (cs.contains ·)).reverse.dropWhile (cs.contains ·)).reverse

/-- Python slicing `s[:n]`. -/
def pyTake (n : Nat) (s : String) : String := String.mk (s.data.take n)

/-- Python `s.splitlines()` for `\n`-separated text (state machine over the
characters; a trailing `\n` yields a final empty segment which every caller
in the repository filters out with `if l.strip()`). -/
def splitNlGo : List Char → List Char → List (List Char)
  | [], cur => [cur.reverse]
  | c :: rest, cur =>
      if c = '\n' then cur.reverse :: splitNlGo rest []
      else splitNlGo rest (c :: cur)

def splitLines (s : String) : List String :=
  (splitNlGo s.data []).map String.mk

/-- `[l.strip() for l in text.splitlines() if l.strip()]`: the stripped
non-blank lines of a text. -/
def nonBlankLines (text : String) : List String :=
  ((splitNlGo text.data []).map pyStripL).filter (fun l => !l.isEmpty)
    |>.map String.mk

/-- `" ".join(parts)`. -/
def joinSp : List String → String
  | [] => ""
  | [s] => s
  | s :: t :: rest => s ++ " " ++ joinSp (t :: rest)

/-- `re.split(r"\n{2,}", text)`: split at each maximal run of two or more
newlines.  The `Bool` is true while consuming the remainder of a separator
run. -/
def splitParaGo : Bool → List Char → List Char → List (List Char)
  | _, [], cur => [cur.reverse]
  | true, '\n' :: rest, cur => splitParaGo true rest cur
  | true, c :: rest, cur => splitParaGo false rest (c :: cur)
  | false, '\n' :: '\n' :: rest, cur => cur.reverse :: splitParaGo true rest []
  | false, c :: rest, cur => splitParaGo false rest (c :: cur)

def splitParas (s : String) : List (List Char) := splitParaGo false s.data []

/-- `pat.isSubstringOf l` starting at the head. -/
def startsWithL : List Char → List Char → Bool
  | [], _ => true
  | _ :: _, [] => false
  | p :: ps, c :: cs => p == c && startsWithL ps cs

/-- Substring containment on character lists. -/
def containsL (pat : List Char) : List Char → Bool
  | [] => startsWithL pat []
  | c :: cs => startsWithL pat (c :: cs) || containsL pat cs

/-- Case-insensitive substring search (`re.search(lit, s, re.I)` for a
literal alternative `lit`). -/
def containsCI (pat : String) (l : List Char) : Bool :=
  containsL pat.data (l.map Char.toLower)

end DefectCollector

namespace DefectCollector

/-! ## `src/nlp` : LLM extractor (`extractor_llm.py`) and schema -/

/-- Modelled from the spec: the module `src/nlp/schema.py` (imported by
`extractor_llm.py` as `from .schema import DEFAULT_SCHEMA`) is not among the
provided sources.  Per spec §3 an `ExtractionSchema` has exactly the six
keys `title`, `description`, `version`, `severity`, `steps_to_reproduce`
(a sequence) and `stack_trace`; string defaults are empty and the severity
vocabulary's "unknown" value is `"UnKnow"` (§4.4/§6). -/
def DEFAULT_SCHEMA : PyDict :=
  [("title", .str ""), ("description", .str ""), ("version", .str ""),
   ("severity", .str "UnKnow"), ("steps_to_reproduce", .list []),
   ("stack_trace", .str "")]

/-- The fixed six-key set of an `ExtractionSchema`, in schema order. -/
def schemaKeys : List String :=
  ["title", "description", "version", "severity", "steps_to_reproduce",
   "stack_trace"]

/-- The per-key body of the `for key in validated.keys()` loop of
`validate_extraction` (`extractor_llm.py` lines 125-133):
`validated[key] = result.get(key, validated[key])`, then the list
special-case `if isinstance(validated[key], list) and not
isinstance(result.get(key), list)`, then truncation/stripping of string
values. -/
def validateKey (result : PyDict) (key : String) (dflt : PyVal) : PyVal :=
  let v0 := pyGet2 result key dflt
  let v1 :=
    if v0.isList && !(pyGet1 result key).isList then
      if (pyGet1 result key).truthy then
        PyVal.list [.str (pyGet1 result key).pyStr]
      else PyVal.list []
    else v0
  match v1 with
  | .str s => .str (pyStrip (pyTake 5000 s))
  | v => v

/-- `validate_extraction(result, schema=DEFAULT_SCHEMA)`: copy the schema
and run the per-key loop.  (The Python default argument is
`DEFAULT_SCHEMA`; call sites below pass it explicitly.) -/
def validate_extraction (result : PyDict) (schema : PyDict) : PyDict :=
  schema.map (fun p => (p.1, validateKey result p.1 p.2))

/-- Outcome of `call_llm` followed by `json.loads` as observed by
`llm_extract`.  `parsed d`: the call succeeded and the output parsed as a
JSON object; `parseFail`: `json.JSONDecodeError`; `otherFail`: any other
exception (retries exhausted, unexpected response shape, or a JSON value
that is not an object, whose `.get` raises `AttributeError`). -/
inductive ModelOutcome where
  | parsed (d : PyDict)
  | parseFail
  | otherFail

/-- `llm_extract(text, model, validate=True)` (`extractor_llm.py`
lines 207-243).  The network call is abstracted by `outcome`; every branch
of the source returns (all exceptions are caught), which the embedding
reflects by being a total function. -/
def llm_extract (text : String) (outcome : ModelOutcome) (validate : Bool) :
    PyDict :=
  if text == "" || pyStrip text == "" then DEFAULT_SCHEMA
  else
    match outcome with
    | .parsed extracted =>
        if validate then validate_extraction extracted DEFAULT_SCHEMA
        else extracted
    | .parseFail =>
        let lines := nonBlankLines text
        match lines with
        | [] => DEFAULT_SCHEMA
        | l0 :: rest =>
            dictSet (dictSet DEFAULT_SCHEMA "title" (.str (pyTake 200 l0)))
              "description" (.str (joinSp (rest.take 4)))
    | .otherFail => DEFAULT_SCHEMA

/-! ## `src/nlp/extractor_rules.py` -/

/-- Continuation of the `VERSION_REGEX` matcher after the mandatory
`v?\d+\.\d+` prefix has been consumed into `acc`: consume the greedy
`(\.\d+)*` groups and settle the final `\b`.  Mode `true` = inside a digit
run; mode `false` = just consumed a `.`, expecting the group's first digit.
Falling back from a failed deeper group to `some acc` is exact: the next
character is then `.`, which is a non-word character, so the boundary
holds after `acc`. -/
def grpScan : Bool → List Char → List Char → Option (List Char)
  | true, [], acc => some acc
  | true, c :: rest, acc =>
      if c.isDigit then grpScan true rest (acc ++ [c])
      else if c == '.' then
        match grpScan false rest (acc ++ [c]) with
        | some s => some s
        | Option.none => some acc
      else if isWordChar c then Option.none
      else some acc
  | false, [], _ => Option.none
  | false, c :: rest, acc =>
      if c.isDigit then grpScan true rest (acc ++ [c]) else Option.none

/-- Try `VERSION_REGEX = \b(v?\d+\.\d+(\.\d+)*)\b` (case-insensitive) at
the start of `cs`; the caller has already checked the leading `\b`. -/
def matchVersionAt (cs : List Char) : Option (List Char) :=
  let vpre : List Char × List Char :=
    match cs with
    | c :: rest => if c == 'v' || c == 'V' then ([c], rest) else ([], cs)
    | [] => ([], [])
  let d1 := vpre.2.takeWhile Char.isDigit
  let r1 := vpre.2.dropWhile Char.isDigit
  if d1.isEmpty then Option.none
  else
    match r1 with
    | '.' :: r2 =>
        let d2 := r2.takeWhile Char.isDigit
        let r3 := r2.dropWhile Char.isDigit
        if d2.isEmpty then Option.none
        else grpScan true r3 (vpre.1 ++ d1 ++ ['.'] ++ d2)
    | _ => Option.none

/-- Leftmost scan of `VERSION_REGEX.search`: at every position whose
preceding character is a non-word character (the `\b`), try the match. -/
def scanVersion : Option Char → List Char → Option (List Char)
  | _, [] => Option.none
  | prev, c :: rest =>
      let bOK : Bool := match prev with
        | some p => !isWordChar p
        | Option.none => true
      if bOK then
        match matchVersionAt (c :: rest) with
        | some s => some s
        | Option.none => scanVersion (some c) rest
      else scanVersion (some c) rest

/-- `extract_version(text)` (`extractor_rules.py` lines 8-12): first match
of `VERSION_REGEX`, or `None`. -/
def extract_version (text : String) : Option String :=
  (scanVersion Option.none text.data).map String.mk

/-- `extract_steps_by_heading(text)` (`extractor_rules.py` lines 14-22):
split into paragraphs at blank lines, find the first paragraph matching
`Steps to Reproduce|Reproduc|How to reproduce` (case-insensitive), return
its non-blank lines with `"-. \t"` stripped from both ends. -/
def extract_steps_by_heading (text : String) : List String :=
  let parts := splitParas text
  match parts.find? (fun p =>
      containsCI "steps to reproduce" p || containsCI "reproduc" p ||
      containsCI "how to reproduce" p) with
  | some p =>
      (((splitNlGo p []).filter (fun l => !(pyStripL l).isEmpty)).map
        (fun l => pyStripCharsL ['-', '.', ' ', '\t'] l)).map String.mk
  | Option.none => []

end DefectCollector

namespace DefectCollector

/-! ## `src/preprocessing/clean.py` : `normalize_text` (stage 6) -/

/-- The punctuation class `[.,!?;:，。！？；：]` of `normalize_text`. -/
def isPunctCls (c : Char) : Bool :=
  c == '.' || c == ',' || c == '!' || c == '?' || c == ';' || c == ':' ||
  c == '，' || c == '。' || c == '！' || c == '？' || c == '；' || c == '：'

/-- `re.sub(r"([.,!?;:，。！？；：]){2,}", r"\1", text)`: each maximal run of
two or more class characters is replaced by its last character (`\1`
captures the final repetition).  Equivalently, a class character is kept
iff it is not immediately followed by another class character. -/
def collapsePunct : List Char → List Char
  | [] => []
  | [c] => [c]
  | c :: d :: rest =>
      if isPunctCls c && isPunctCls d then collapsePunct (d :: rest)
      else c :: collapsePunct (d :: rest)

/-- `[^\w\s]`: printable punctuation, neither word nor whitespace. -/
def isNWS (c : Char) : Bool := !isWordChar c && !isPySpace c

/-- Remove the maximal `[^\w\s]+` suffix (the `$`-anchored alternative). -/
def dropTrailNWS (l : List Char) : List Char :=
  (l.reverse.dropWhile isNWS).reverse

/-- `re.sub(r"^[^\w\s]+|[^\w\s]+$", "", text)`: drop a leading run of
non-word non-space characters, and a trailing run ending at the end of the
string — or, as Python's `$` also matches just before a final newline,
ending right before a terminal `\n`. -/
def stripAnchored (l : List Char) : List Char :=
  let l1 := l.dropWhile isNWS
  if l1.getLast? == some '\n' then dropTrailNWS l1.dropLast ++ ['\n']
  else dropTrailNWS l1

/-- `re.sub(r"\s+", " ", text)`: each maximal whitespace run becomes a
single space. -/
def collapseWs : List Char → List Char
  | [] => []
  | [c] => if isPySpace c then [' '] else [c]
  | c :: d :: rest =>
      if isPySpace c && isPySpace d then collapseWs (d :: rest)
      else (if isPySpace c then ' ' else c) :: collapseWs (d :: rest)

/-- `normalize_text(text)` (`clean.py` lines 60-68): lowercase, collapse
repeated punctuation, strip anchored non-word runs, collapse whitespace,
strip. -/
def normalize_text (text : String) : String :=
  if text == "" then ""
  else
    String.mk (pyStripL (collapseWs (stripAnchored (collapsePunct
      (text.data.map Char.toLower)))))

/-! ## `src/collectors` : the three platform collectors -/

/-- A raw item of a platform's issue-listing API response, with the fields
the collectors read.  `is_pr` models `"pull_request" in item` (an item
flagged as a pull/merge request); `created` is the parsed `created_at`
timestamp (`datetime.fromisoformat` is modelled as already applied, and
likewise for the parsed `since`/`until` bounds). -/
structure RawItem where
  is_pr : Bool
  number : Nat
  iid : Nat
  gid : Nat
  title : String
  body : Option String
  created : Int
  updated : Int
  state : String
  url : String
deriving DecidableEq

/-- The structured issue dict a collector appends to its result list; the
union of the three collectors' shapes (fields a collector does not emit are
`none`). -/
structure GIssue where
  platform : String
  issue_id : Nat
  global_id : Option Nat
  title : String
  body : String
  created : Int
  updated : Option Int
  state : Option String
  url : String
  owner : Option String
  repo : Option String
deriving DecidableEq

/-- The dict built by `GithubCollector.fetch_recent` (lines 79-86). -/
def mkGithubIssue (it : RawItem) : GIssue :=
  { platform := "github", issue_id := it.number, global_id := Option.none,
    title := it.title, body := it.body.getD "", created := it.created,
    updated := Option.none, state := Option.none, url := it.url,
    owner := Option.none, repo := Option.none }

/-- The dict built by `GiteeCollector.fetch_recent` (lines 68-77). -/
def mkGiteeIssue (it : RawItem) : GIssue :=
  { platform := "gitee", issue_id := it.number, global_id := Option.none,
    title := it.title, body := it.body.getD "", created := it.created,
    updated := some it.updated, state := some it.state, url := it.url,
    owner := Option.none, repo := Option.none }

/-- The dict built by `GitLabCollector.fetch_recent` (lines 78-90); note
the per-repo `iid` plus the secondary global `id`, and that the body comes
from the `description` field. -/
def mkGitlabIssue (owner repo : String) (it : RawItem) : GIssue :=
  { platform := "gitlab", issue_id := it.iid, global_id := some it.gid,
    title := it.title, body := it.body.getD "", created := it.created,
    updated := some it.updated, state := some it.state, url := it.url,
    owner := some owner, repo := some repo }

/-- The collectors' conditional lower-bound check: `if since:` followed by
`issue_created_at < since_dt` on the parsed bound. -/
def beforeSince (since : Option Int) (t : Int) : Bool :=
  match since with
  | some s => t < s
  | Option.none => false

/-- The collectors' conditional upper-bound check: `if until:` followed by
`issue_created_at > until_dt` on the parsed bound. -/
def afterUntil (untl : Option Int) (t : Int) : Bool :=
  match untl with
  | some u => t > u
  | Option.none => false

/-- `GithubCollector.fetch_recent` (github_collector.py lines 49-87): a
SINGLE request (no page parameter, no loop); the response `resp` is the
upstream's first page.  `since` is only passed to the server (no
client-side lower-bound check), `until` is applied client-side: skip items
with `created_at > until`; items flagged as pull requests are skipped. -/
def githubFetchRecent (resp : List RawItem) (untl : Option Int) :
    List GIssue :=
  resp.filterMap (fun item =>
    if item.is_pr then Option.none
    else if afterUntil untl item.created then Option.none
    else some (mkGithubIssue item))

/-- Per-page body of the `while True` loop of `GiteeCollector.fetch_recent`
(lines 48-77): skip pull requests, apply both bounds client-side
(`created_at < since` and `created_at > until` are skipped), build dicts. -/
def giteeProcPage (since untl : Option Int) (items : List RawItem) :
    List GIssue :=
  items.filterMap (fun item =>
    if item.is_pr then Option.none
    else if beforeSince since item.created then Option.none
    else if afterUntil untl item.created then Option.none
    else some (mkGiteeIssue item))

/-- Per-page body of the `while True` loop of
`GitLabCollector.fetch_recent` (lines 76-90): every item of the page is
appended — there is no pull/merge-request check and no client-side time
check (both bounds were passed to the server as `created_after` /
`created_before`). -/
def gitlabProcPage (owner repo : String) (items : List RawItem) :
    List GIssue :=
  items.map (mkGitlabIssue owner repo)

/-- The shared `while True:` pagination loop of the Gitee and GitLab
collectors: request page `page`, stop when the page is empty, else process
it, append, and continue with `page + 1`.  The loop has no bound of its
own; `fuel` makes the embedding total, and `none` means the loop did not
terminate within `fuel` iterations. -/
def paginateLoop (proc : List RawItem → List GIssue)
    (pages : Nat → List RawItem) :
    Nat → Nat → List GIssue → Option (List GIssue)
  | 0, _, _ => Option.none
  | fuel + 1, page, acc =>
      if (pages page).isEmpty then some acc
      else paginateLoop proc pages fuel (page + 1) (acc ++ proc (pages page))

/-- `GiteeCollector.fetch_recent`: paginate from page 1. -/
def giteeFetchRecent (pages : Nat → List RawItem) (since untl : Option Int)
    (fuel : Nat) : Option (List GIssue) :=
  paginateLoop (giteeProcPage since untl) pages fuel 1 []

/-- `GitLabCollector.fetch_recent`: paginate from page 1 (the server
applies the time bounds). -/
def gitlabFetchRecent (pages : Nat → List RawItem) (owner repo : String)
    (fuel : Nat) : Option (List GIssue) :=
  paginateLoop (gitlabProcPage owner repo) pages fuel 1 []

/-- The items of pages `p, p+1, …, p+n-1` processed and concatenated: what
"paginate and stop at the first empty page" collects when the first empty
page is page `p + n`. -/
def joinPages (proc : List RawItem → List GIssue)
    (pages : Nat → List RawItem) : Nat → Nat → List GIssue
  | _, 0 => []
  | p, n + 1 => proc (pages p) ++ joinPages proc pages (p + 1) n

end DefectCollector

namespace DefectCollector

/-! ## `src/storage/mysql_client.py` : the storage gateway

The MySQL server is an external collaborator; its `standardized_defect`
table is modelled from the spec (§6): a row store whose uniqueness is
enforced over the composite `(repo_id, issue_id)` (INSERT IGNORE is a
silent no-op when the key is present), plus an auto-increment counter for
generated identifiers. -/

/-- The column tuple `params` built by `MySQLClient.insert_one`
(`mysql_client.py` lines 111-123). -/
structure InsertRow where
  repo_id : PyVal
  issue_id : PyVal
  title : PyVal
  description : PyVal
  version : PyVal
  steps_to_reproduce : String
  severity : PyVal
  stack_trace : PyVal
  url : PyVal
  created_at : PyVal
  record_at : Nat

/-- `str(doc.get("steps_to_reproduce")) or ""` — the `or ""` never fires
on a non-empty `str(...)`. -/
def strOrEmpty (s : String) : String := if s == "" then "" else s

/-- The `params` tuple of `insert_one`: each falsy field is replaced by
its fallback (`""`, `"Unknown"`), `steps_to_reproduce` is serialized with
`str(...)`, `record_at` is `datetime.now()` (passed in as `now`). -/
def insertRowOf (doc : PyDict) (now : Nat) : InsertRow :=
  { repo_id := pyGet1 doc "repo_id",
    issue_id := pyGet1 doc "issue_id",
    title := pyGet1 doc "title",
    description := pyOr (pyGet1 doc "description") (.str ""),
    version := pyOr (pyGet1 doc "version") (.str ""),
    steps_to_reproduce := strOrEmpty (pyGet1 doc "steps_to_reproduce").pyStr,
    severity := pyOr (pyGet1 doc "severity") (.str "Unknown"),
    stack_trace := pyOr (pyGet1 doc "stack_trace") (.str ""),
    url := pyOr (pyGet1 doc "url") (.str ""),
    created_at := pyGet1 doc "created_at",
    record_at := now }

/-- The persisted-defect store: rows plus the auto-increment counter. -/
structure DBState where
  rows : List InsertRow
  nextId : Nat

/-- Does the table hold a row with the composite key `(r, i)`?  (The
uniqueness constraint of the external table, spec §6.) -/
def DBState.hasKey (st : DBState) (r i : PyVal) : Bool :=
  st.rows.any (fun row => row.repo_id.pyStr == r.pyStr &&
    row.issue_id.pyStr == i.pyStr)

/-- `MySQLClient.is_duplicate(repo_id, issue_id)` (lines 81-92): falsy
arguments short-circuit to `False`; otherwise an existence check on the
composite key. -/
def is_duplicate (st : DBState) (repo_id issue_id : PyVal) : Bool :=
  if !(repo_id.truthy && issue_id.truthy) then false
  else st.hasKey repo_id issue_id

/-- `MySQLClient.insert_one(doc)` (lines 94-138): raise `ValueError` when
`repo_id` or `issue_id` is falsy; otherwise INSERT IGNORE — when the
composite key is already present, no row is written and `None` is
returned (`rowcount == 0`), else the row is appended and the generated
auto-increment identifier returned.  `.error` models the raised
exception. -/
def insert_one (doc : PyDict) (now : Nat) (st : DBState) :
    Except String (Option Nat × DBState) :=
  let repo_id := pyGet1 doc "repo_id"
  let issue_id := pyGet1 doc "issue_id"
  if !repo_id.truthy || !issue_id.truthy then
    .error "ValueError: repo_id and issue_id are required"
  else if st.hasKey repo_id issue_id then
    .ok (Option.none, st)
  else
    .ok (some st.nextId,
      { rows := st.rows ++ [insertRowOf doc now], nextId := st.nextId + 1 })

/-! ## `src/pipeline/pipeline_runner.py` -/

/-- `process_issue(issue)` (`pipeline_runner.py` lines 10-35).  The
cleaning chain `strip_html_markdown` / `remove_noise` / `normalize_text`
renders HTML through the external BeautifulSoup library, so its output is
passed in as `cleaned`; the LLM call inside `llm_extract` is abstracted by
`outcome` as above.  The returned dict is the merge of the LLM result, the
rule extraction over `cleaned`, and the original issue. -/
def process_issue (issue : PyDict) (cleaned : String)
    (outcome : ModelOutcome) : PyDict :=
  let llm_res := llm_extract cleaned outcome true
  let version := extract_version cleaned
  let steps := extract_steps_by_heading cleaned
  [("platform", pyGet1 issue "platform"),
   ("repo_id", .str ""),
   ("issue_id", pyGet1 issue "issue_id"),
   ("title", pyOr (pyGet1 llm_res "title") (pyGet1 issue "title")),
   ("description",
     pyOr (pyGet1 llm_res "description") (.str (pyTake 2000 cleaned))),
   ("version",
     pyOr (pyGet1 llm_res "version")
       (match version with
        | some v => .str v
        | Option.none => PyVal.none)),
   ("steps_to_reproduce",
     pyOr (pyGet1 llm_res "steps_to_reproduce")
       (.list (steps.map PyVal.str))),
   ("severity", pyOr (pyGet1 llm_res "severity") (.str "UnKnow")),
   ("stack_trace", pyOr (pyGet1 llm_res "stack_trace") (.str "")),
   ("url", pyGet1 issue "url"),
   ("created_at", pyGet1 issue "created_at")]

/-- The per-issue loop of `run_once` (`pipeline_runner.py` lines 61-77):
skip issues whose composite key is already stored, else merge and insert,
counting the inserts that returned a generated identifier.  `cleanedOf`
and `outcomeOf` supply each issue's cleaned text and LLM outcome; an
insert exception propagates (aborts the loop), as in the source. -/
def runLoop (repo_id : PyVal) (cleanedOf : PyDict → String)
    (outcomeOf : PyDict → ModelOutcome) (now : Nat) :
    List PyDict → Nat → DBState → Except String (Nat × DBState)
  | [], num, st => .ok (num, st)
  | issue :: rest, num, st =>
      if is_duplicate st repo_id (pyGet1 issue "issue_id") then
        runLoop repo_id cleanedOf outcomeOf now rest num st
      else
        let doc := dictSet (process_issue issue (cleanedOf issue)
          (outcomeOf issue)) "repo_id" repo_id
        match insert_one doc now st with
        | .error e => .error e
        | .ok (Option.none, st') =>
            runLoop repo_id cleanedOf outcomeOf now rest num st'
        | .ok (some _, st') =>
            runLoop repo_id cleanedOf outcomeOf now rest (num + 1) st'

/-- `run_once(owner, repo, since, until, platform, state, repo_id)`
(lines 37-77): dispatch on the platform tag — an unknown tag prints and
returns `None` (modelled as `Option.none`) — then fetch (the fetched
issue list is abstracted as `issues`) and run the per-issue loop,
returning the number of newly inserted records. -/
def run_once (platform : String) (repo_id : PyVal) (issues : List PyDict)
    (cleanedOf : PyDict → String) (outcomeOf : PyDict → ModelOutcome)
    (now : Nat) (st : DBState) : Option (Except String (Nat × DBState)) :=
  if platform == "github" || platform == "gitee" || platform == "gitlab" then
    some (runLoop repo_id cleanedOf outcomeOf now issues 0 st)
  else Option.none

end DefectCollector

namespace DefectCollector

/-! ## Storage gateway lemmas and claims C1, C10 -/

/-- Appending a row with key `(r, i)` makes `hasKey r i` true. -/
theorem hasKey_append (st : DBState) (row : InsertRow) (r i : PyVal)
    (hr : row.repo_id.pyStr = r.pyStr) (hi : row.issue_id.pyStr = i.pyStr) :
    DBState.hasKey ⟨st.rows ++ [row], st.nextId + 1⟩ r i = true := by
  simp [DBState.hasKey, List.any_append, hr, hi]

/-- Claim C1: for a record with truthy (in particular, non-empty)
`repo_id` and `issue_id`, a first `insert_one` followed by a second with
the same composite key raises no exception, the second returns `None` and
leaves the store unchanged, the row count grows by at most one, and the
first call returns a generated identifier whenever the key was not yet
present; a record with an empty `repo_id` or `issue_id` fails with a
`ValueError`. -/
theorem insert_one_idempotent (doc : PyDict) (now now2 : Nat) (st : DBState) :
    (((pyGet1 doc "repo_id").truthy && (pyGet1 doc "issue_id").truthy) = true →
      ∃ r1 st1,
        insert_one doc now st = .ok (r1, st1) ∧
        insert_one doc now2 st1 = .ok (Option.none, st1) ∧
        st1.rows.length ≤ st.rows.length + 1 ∧
        (st.hasKey (pyGet1 doc "repo_id") (pyGet1 doc "issue_id") = false →
          ∃ id, r1 = some id)) ∧
    ((pyGet1 doc "repo_id" = PyVal.str "" ∨ pyGet1 doc "issue_id" = PyVal.str "") →
      ∃ e, insert_one doc now st = .error e) := by
  constructor
  · intro htr
    simp only [Bool.and_eq_true] at htr
    by_cases hk : st.hasKey (pyGet1 doc "repo_id") (pyGet1 doc "issue_id") = true
    · refine ⟨Option.none, st, ?_, ?_, Nat.le_succ _, ?_⟩
      · simp [insert_one, htr.1, htr.2, hk]
      · simp [insert_one, htr.1, htr.2, hk]
      · intro hcontra; rw [hcontra] at hk; cases hk
    · rw [Bool.not_eq_true] at hk
      refine ⟨some st.nextId,
        ⟨st.rows ++ [insertRowOf doc now], st.nextId + 1⟩, ?_, ?_, ?_, ?_⟩
      · simp [insert_one, htr.1, htr.2, hk]
      · have hk2 : DBState.hasKey ⟨st.rows ++ [insertRowOf doc now],
            st.nextId + 1⟩ (pyGet1 doc "repo_id") (pyGet1 doc "issue_id") = true :=
          hasKey_append st _ _ _ rfl rfl
        simp [insert_one, htr.1, htr.2, hk2]
      · simp
      · intro _; exact ⟨st.nextId, rfl⟩
  · intro hempty
    refine ⟨"ValueError: repo_id and issue_id are required", ?_⟩
    rcases hempty with h | h <;>
      simp [insert_one, h, PyVal.truthy]

/-- Witness for C1: a concrete fresh record on an empty store — the first
insert returns identifier 0, the second returns `None`, and the empty-key
variant errors. -/
theorem insert_one_idempotent_witness :
    (∃ r1 st1,
      insert_one [("repo_id", PyVal.str "r1"), ("issue_id", PyVal.str "7")]
          5 ⟨[], 0⟩ = .ok (r1, st1) ∧
      insert_one [("repo_id", PyVal.str "r1"), ("issue_id", PyVal.str "7")]
          6 st1 = .ok (Option.none, st1) ∧
      st1.rows.length ≤ 1 ∧ (∃ id, r1 = some id)) ∧
    (∃ e, insert_one [("repo_id", PyVal.str ""), ("issue_id", PyVal.str "7")]
        5 ⟨[], 0⟩ = .error e) := by
  constructor
  · obtain ⟨r1, st1, h1, h2, h3, h4⟩ :=
      (insert_one_idempotent
        [("repo_id", PyVal.str "r1"), ("issue_id", PyVal.str "7")]
        5 6 ⟨[], 0⟩).1 (by rfl)
    exact ⟨r1, st1, h1, h2, h3, h4 (by rfl)⟩
  · exact (insert_one_idempotent
      [("repo_id", PyVal.str ""), ("issue_id", PyVal.str "7")]
      5 5 ⟨[], 0⟩).2 (Or.inl rfl)

/-- Claim C10: the persisted `steps_to_reproduce` column is `str(...)` of
the record's field; an absent or `None` field is persisted as the literal
string `"None"`, not as the empty string, because `str(None)` is non-empty
and short-circuits the `or ""` fallback. -/
theorem insert_steps_str_of_none (doc : PyDict) (now : Nat) :
    (insertRowOf doc now).steps_to_reproduce =
      strOrEmpty (pyGet1 doc "steps_to_reproduce").pyStr ∧
    (pyGet1 doc "steps_to_reproduce" = PyVal.none →
      (insertRowOf doc now).steps_to_reproduce = "None" ∧
      (insertRowOf doc now).steps_to_reproduce ≠ "") := by
  refine ⟨rfl, fun h => ?_⟩
  constructor
  · simp [insertRowOf, h, PyVal.pyStr, PyVal.pyRepr, strOrEmpty]
  · simp [insertRowOf, h, PyVal.pyStr, PyVal.pyRepr, strOrEmpty]

/-- Witness for C10: a doc without the key persists `"None"`. -/
theorem insert_steps_str_of_none_witness :
    (insertRowOf [("repo_id", PyVal.str "r")] 3).steps_to_reproduce = "None" ∧
    (insertRowOf [("repo_id", PyVal.str "r")] 3).steps_to_reproduce ≠ "" :=
  (insert_steps_str_of_none [("repo_id", PyVal.str "r")] 3).2 rfl

end DefectCollector

namespace DefectCollector

/-! ## String lemmas: a non-blank text has a non-blank line -/

/-- If everything surviving `dropWhile p` satisfies `p`, everything did. -/
theorem all_of_dropWhile_all (p : Char → Bool) :
    ∀ l : List Char, (∀ x ∈ l.dropWhile p, p x = true) → ∀ x ∈ l, p x = true := by
  intro l
  induction l with
  | nil => intro _ x hx; cases hx
  | cons c rest ih =>
      intro h x hx
      by_cases hc : p c = true
      · rcases List.mem_cons.mp hx with hx | hx
        · subst hx; exact hc
        · exact ih (by simpa [List.dropWhile_cons, hc] using h) x hx
      · exfalso
        apply hc
        apply h
        simp [List.dropWhile_cons, hc]

/-- `s.strip()` is empty iff every character is whitespace. -/
theorem pyStripL_eq_nil_iff (l : List Char) :
    pyStripL l = [] ↔ ∀ c ∈ l, isPySpace c = true := by
  unfold pyStripL
  rw [List.reverse_eq_nil_iff, List.dropWhile_eq_nil_iff]
  constructor
  · intro h
    apply all_of_dropWhile_all isPySpace l
    intro x hx
    exact h x (by simpa using hx)
  · intro h x hx
    apply h
    have hx2 : x ∈ List.dropWhile isPySpace l := by simpa using hx
    exact (List.dropWhile_sublist isPySpace).mem hx2

/-- If every segment produced by `splitNlGo` is all-whitespace, then so is
every character of the remaining input and of the accumulator. -/
theorem splitNlGo_all_space :
    ∀ (l cur : List Char),
      (∀ seg ∈ splitNlGo l cur, ∀ c ∈ seg, isPySpace c = true) →
      ∀ c, (c ∈ l ∨ c ∈ cur) → isPySpace c = true := by
  intro l
  induction l with
  | nil =>
      intro cur h c hc
      rcases hc with hc | hc
      · cases hc
      · exact h cur.reverse (by simp [splitNlGo]) c (by simpa using hc)
  | cons c0 rest ih =>
      intro cur h c hc
      by_cases h0 : c0 = '\n'
      · subst h0
        rw [show splitNlGo ('\n' :: rest) cur =
            cur.reverse :: splitNlGo rest [] from by rw [splitNlGo]; simp] at h
        have hcur : ∀ x ∈ cur, isPySpace x = true := by
          intro x hx
          exact h cur.reverse (by simp) x (by simpa using hx)
        rcases hc with hc | hc
        · rcases List.mem_cons.mp hc with hc | hc
          · subst hc; rfl
          · exact ih [] (fun seg hs => h seg (by simp [hs])) c (Or.inl hc)
        · exact hcur c hc
      · rw [show splitNlGo (c0 :: rest) cur = splitNlGo rest (c0 :: cur) from by
            rw [splitNlGo]; simp [h0]] at h
        have := ih (c0 :: cur) h
        rcases hc with hc | hc
        · rcases List.mem_cons.mp hc with hc | hc
          · exact this c (Or.inr (by simp [hc]))
          · exact this c (Or.inl hc)
        · exact this c (Or.inr (by simp [hc]))

/-- A text whose stripped form is non-empty has at least one non-blank
line. -/
theorem nonBlankLines_ne_nil (text : String) (h : pyStrip text ≠ "") :
    nonBlankLines text ≠ [] := by
  intro hnil
  apply h
  have hall : ∀ seg ∈ splitNlGo text.data [], pyStripL seg = [] := by
    simpa [nonBlankLines] using hnil
  have hspace : ∀ c ∈ text.data, isPySpace c = true := by
    intro c hc
    refine splitNlGo_all_space text.data [] ?_ c (Or.inl hc)
    intro seg hs x hx
    exact (pyStripL_eq_nil_iff seg).mp (hall seg hs) x hx
  unfold pyStrip
  rw [(pyStripL_eq_nil_iff text.data).mpr hspace]

end DefectCollector

namespace DefectCollector

/-! ## Claim C2: schema repair of a non-sequence `steps_to_reproduce` -/

/-- Claim C2 (failing input): `validate_extraction` on a parsed model
output whose `steps_to_reproduce` is a bare string returns that bare
string, not a sequence: the `isinstance(validated[key], list)` test runs
on the already-overwritten value, so the list-coercion branch never fires
for a present non-list value.  This contradicts the function's own
docstring (ensure the result conforms to the schema format) and the
spec's VALIDATE rule, which says a non-sequence value is coerced into a
(possibly empty) sequence. -/
theorem validate_extraction_keeps_bare_string :
    dictGet (validate_extraction
        [("steps_to_reproduce", PyVal.str "open the app")] DEFAULT_SCHEMA)
        "steps_to_reproduce" = some (PyVal.str "open the app") ∧
    (pyGet1 (validate_extraction
        [("steps_to_reproduce", PyVal.str "open the app")] DEFAULT_SCHEMA)
        "steps_to_reproduce").isList = false :=
  ⟨rfl, rfl⟩

/-! ## Claim C3: the LLM extraction entry point is total -/

/-- The fallback dict keeps exactly the six schema keys. -/
theorem dictKeys_fallback (t d : PyVal) :
    dictKeys (dictSet (dictSet DEFAULT_SCHEMA "title" t) "description" d) =
      schemaKeys := rfl

/-- `validate_extraction` keeps exactly the schema's keys. -/
theorem dictKeys_validate (result : PyDict) :
    dictKeys (validate_extraction result DEFAULT_SCHEMA) = schemaKeys := rfl

/-- Reduction of `llm_extract` once the blank-input guard is settled. -/
theorem llm_extract_of_nonblank (text : String) (outcome : ModelOutcome)
    (v : Bool) (hbf : (text == "" || pyStrip text == "") = false) :
    llm_extract text outcome v =
      match outcome with
      | .parsed extracted =>
          if v then validate_extraction extracted DEFAULT_SCHEMA else extracted
      | .parseFail =>
          match nonBlankLines text with
          | [] => DEFAULT_SCHEMA
          | l0 :: rest =>
              dictSet (dictSet DEFAULT_SCHEMA "title" (.str (pyTake 200 l0)))
                "description" (.str (joinSp (rest.take 4)))
      | .otherFail => DEFAULT_SCHEMA := by
  unfold llm_extract
  rw [if_neg (by simp_all)]

/-- Claim C3: for every input text and every model-call outcome,
`llm_extract` (with its default `validate=True`) returns a six-key dict —
every exception path of the source is caught, so the embedding is a total
function and an error outcome cannot escape.  On a JSON-parse failure
with non-blank input the result's `title` is the first non-blank line
truncated to 200 characters and `description` the next up-to-four
non-blank lines joined by spaces; on any other exception, and on blank
input, the result is the full default schema. -/
theorem llm_extract_total (text : String) (outcome : ModelOutcome) :
    dictKeys (llm_extract text outcome true) = schemaKeys ∧
    (pyStrip text ≠ "" → outcome = ModelOutcome.parseFail →
      ∃ l0 rest, nonBlankLines text = l0 :: rest ∧
        dictGet (llm_extract text outcome true) "title" =
          some (.str (pyTake 200 l0)) ∧
        dictGet (llm_extract text outcome true) "description" =
          some (.str (joinSp (rest.take 4)))) ∧
    (outcome = ModelOutcome.otherFail →
      llm_extract text outcome true = DEFAULT_SCHEMA) ∧
    (pyStrip text = "" → llm_extract text outcome true = DEFAULT_SCHEMA) := by
  by_cases hb : (text == "" || pyStrip text == "") = true
  · have hdef : llm_extract text outcome true = DEFAULT_SCHEMA := by
      unfold llm_extract
      rw [if_pos hb]
    refine ⟨by rw [hdef]; rfl, ?_, fun _ => hdef, fun _ => hdef⟩
    intro hne _
    exfalso
    rcases Bool.or_eq_true_iff.mp hb with h | h
    · have h0 : text = "" := by simpa using h
      exact hne (by rw [h0]; rfl)
    · exact hne (by simpa using h)
  · have hbf : (text == "" || pyStrip text == "") = false := by
      simpa using hb
    have hne : pyStrip text ≠ "" := by
      intro h0
      rw [Bool.or_eq_false_iff] at hbf
      exact absurd h0 (by simpa using hbf.2)
    rw [llm_extract_of_nonblank text outcome true hbf]
    refine ⟨?_, ?_, ?_, fun h0 => absurd h0 hne⟩
    · cases outcome with
      | parsed d => exact dictKeys_validate d
      | parseFail =>
          cases hl : nonBlankLines text with
          | nil => exact absurd hl (nonBlankLines_ne_nil text hne)
          | cons l0 rest => exact dictKeys_fallback _ _
      | otherFail => rfl
    · intro _ ho
      subst ho
      cases hl : nonBlankLines text with
      | nil => exact absurd hl (nonBlankLines_ne_nil text hne)
      | cons l0 rest => exact ⟨l0, rest, rfl, rfl, rfl⟩
    · intro ho
      subst ho
      rfl

/-- Witness for C3: a concrete three-line input under a parse failure, an
unexpected failure, and a blank input. -/
theorem llm_extract_total_witness :
    (∃ l0 rest,
      nonBlankLines "Crash on save\nSteps below\nMore text" = l0 :: rest ∧
      dictGet (llm_extract "Crash on save\nSteps below\nMore text"
          ModelOutcome.parseFail true) "title" =
        some (.str (pyTake 200 l0)) ∧
      dictGet (llm_extract "Crash on save\nSteps below\nMore text"
          ModelOutcome.parseFail true) "description" =
        some (.str (joinSp (rest.take 4)))) ∧
    llm_extract "Crash on save\nSteps below\nMore text"
        ModelOutcome.otherFail true = DEFAULT_SCHEMA ∧
    llm_extract " \n " ModelOutcome.parseFail true = DEFAULT_SCHEMA := by
  refine ⟨(llm_extract_total "Crash on save\nSteps below\nMore text"
      ModelOutcome.parseFail).2.1 (by decide) rfl,
    (llm_extract_total "Crash on save\nSteps below\nMore text"
      ModelOutcome.otherFail).2.2.1 rfl,
    (llm_extract_total " \n " ModelOutcome.parseFail).2.2.2 (by decide)⟩

end DefectCollector

namespace DefectCollector

/-! ## Claim C7: the merge step's version/severity policy -/

/-- Claim C7 (counterexample): when the LLM version is empty (here: the
default schema, after an unrecoverable extraction failure) and the rule
extractor finds no version, the merged record's `version` is Python
`None` — `llm_res.get("version") or version` with both falsy — and not
the empty string the claim requires. -/
theorem process_issue_version_none_cx :
    dictGet (process_issue [] "hello world" ModelOutcome.otherFail)
        "version" = some PyVal.none ∧
    some PyVal.none ≠ some (PyVal.str "") :=
  ⟨rfl, fun h => PyVal.noConfusion (Option.some.inj h)⟩

/-- Claim C7 (amended): the merged `severity` is the LLM severity when
truthy (for a string: non-empty), else `"UnKnow"`; the merged `version`
is the LLM version when truthy, else the rule-extracted version when one
was found, else Python `None` (persisted as the empty string only later,
by `insert_one`'s `or ""` fallback).  In particular, with a falsy LLM
severity, a falsy LLM version and rule version `"1.2.0"`, the record has
`severity="UnKnow"` and `version="1.2.0"`. -/
theorem process_issue_merge (issue : PyDict) (cleaned : String)
    (outcome : ModelOutcome) :
    ((pyGet1 (llm_extract cleaned outcome true) "severity").truthy = true →
      dictGet (process_issue issue cleaned outcome) "severity" =
        some (pyGet1 (llm_extract cleaned outcome true) "severity")) ∧
    ((pyGet1 (llm_extract cleaned outcome true) "severity").truthy = false →
      dictGet (process_issue issue cleaned outcome) "severity" =
        some (PyVal.str "UnKnow")) ∧
    ((pyGet1 (llm_extract cleaned outcome true) "version").truthy = true →
      dictGet (process_issue issue cleaned outcome) "version" =
        some (pyGet1 (llm_extract cleaned outcome true) "version")) ∧
    ((pyGet1 (llm_extract cleaned outcome true) "version").truthy = false →
      ∀ rv, extract_version cleaned = some rv →
        dictGet (process_issue issue cleaned outcome) "version" =
          some (PyVal.str rv)) ∧
    ((pyGet1 (llm_extract cleaned outcome true) "version").truthy = false →
      extract_version cleaned = Option.none →
        dictGet (process_issue issue cleaned outcome) "version" =
          some PyVal.none) := by
  have hsev : dictGet (process_issue issue cleaned outcome) "severity" =
      some (pyOr (pyGet1 (llm_extract cleaned outcome true) "severity")
        (PyVal.str "UnKnow")) := rfl
  have hver : dictGet (process_issue issue cleaned outcome) "version" =
      some (pyOr (pyGet1 (llm_extract cleaned outcome true) "version")
        (match extract_version cleaned with
         | some v => PyVal.str v
         | Option.none => PyVal.none)) := rfl
  refine ⟨?_, ?_, ?_, ?_, ?_⟩
  · intro h; rw [hsev]; simp [pyOr, h]
  · intro h; rw [hsev]; simp [pyOr, h]
  · intro h; rw [hver]; simp [pyOr, h]
  · intro h rv hrv; rw [hver, hrv]; simp [pyOr, h]
  · intro h hrv; rw [hver, hrv]; simp [pyOr, h]

/-- Witness for C7 (amended), instantiating spec Scenario C: the parsed
model output has an empty severity and no version, the cleaned text
yields rule version `"1.2.0"`; the merged record has severity `"UnKnow"`
and version `"1.2.0"`. -/
theorem process_issue_merge_witness :
    dictGet (process_issue [("title", PyVal.str "t")] "broken in 1.2.0"
        (ModelOutcome.parsed [("severity", PyVal.str "")])) "severity" =
      some (PyVal.str "UnKnow") ∧
    dictGet (process_issue [("title", PyVal.str "t")] "broken in 1.2.0"
        (ModelOutcome.parsed [("severity", PyVal.str "")])) "version" =
      some (PyVal.str "1.2.0") := by
  have h := process_issue_merge [("title", PyVal.str "t")] "broken in 1.2.0"
    (ModelOutcome.parsed [("severity", PyVal.str "")])
  exact ⟨h.2.1 rfl, h.2.2.2.1 rfl "1.2.0" rfl⟩

end DefectCollector

namespace DefectCollector

/-! ## Claim C9: `run_once` returns the count of newly inserted records -/

/-- The merged doc, after the orchestrator attaches `repo_id`, carries the
attached `repo_id` and the issue's `issue_id` in its key fields. -/
theorem mergedDoc_keys (issue : PyDict) (cleaned : String)
    (outcome : ModelOutcome) (repo_id : PyVal) :
    pyGet1 (dictSet (process_issue issue cleaned outcome) "repo_id" repo_id)
        "repo_id" = repo_id ∧
    pyGet1 (dictSet (process_issue issue cleaned outcome) "repo_id" repo_id)
        "issue_id" = pyGet1 issue "issue_id" :=
  ⟨rfl, rfl⟩

/-- Invariant of the per-issue loop: when every issue id and the repo id
are truthy, the loop returns without an exception and the returned count
exceeds the initial `num` by exactly the number of rows added to the
store. -/
theorem runLoop_count (repo_id : PyVal) (cleanedOf : PyDict → String)
    (outcomeOf : PyDict → ModelOutcome) (now : Nat) :
    ∀ (issues : List PyDict) (num : Nat) (st : DBState),
      repo_id.truthy = true →
      (∀ issue ∈ issues, (pyGet1 issue "issue_id").truthy = true) →
      ∃ n st', runLoop repo_id cleanedOf outcomeOf now issues num st =
          .ok (n, st') ∧
        n + st.rows.length = num + st'.rows.length := by
  intro issues
  induction issues with
  | nil =>
      intro num st _ _
      exact ⟨num, st, rfl, rfl⟩
  | cons issue rest ih =>
      intro num st hr hall
      have hi : (pyGet1 issue "issue_id").truthy = true :=
        hall issue (List.mem_cons_self _ _)
      have hrest : ∀ x ∈ rest, (pyGet1 x "issue_id").truthy = true :=
        fun x hx => hall x (List.mem_cons_of_mem _ hx)
      by_cases hdup :
          is_duplicate st repo_id (pyGet1 issue "issue_id") = true
      · obtain ⟨n, st', hrun, hlen⟩ := ih num st hr hrest
        refine ⟨n, st', ?_, hlen⟩
        rw [runLoop, if_pos hdup]
        exact hrun
      · have hkey : st.hasKey repo_id (pyGet1 issue "issue_id") = false := by
          unfold is_duplicate at hdup
          rw [if_neg (by simp [hr, hi])] at hdup
          simpa using hdup
        set doc := dictSet (process_issue issue (cleanedOf issue)
          (outcomeOf issue)) "repo_id" repo_id with hdoc
        have hdr : pyGet1 doc "repo_id" = repo_id :=
          (mergedDoc_keys issue (cleanedOf issue) (outcomeOf issue) repo_id).1
        have hdi : pyGet1 doc "issue_id" = pyGet1 issue "issue_id" :=
          (mergedDoc_keys issue (cleanedOf issue) (outcomeOf issue) repo_id).2
        have hins : insert_one doc now st =
            .ok (some st.nextId,
              ⟨st.rows ++ [insertRowOf doc now], st.nextId + 1⟩) := by
          unfold insert_one
          rw [hdr, hdi]
          rw [if_neg (by simp [hr, hi]), if_neg (by simp [hkey])]
        obtain ⟨n, st', hrun, hlen⟩ :=
          ih (num + 1) ⟨st.rows ++ [insertRowOf doc now], st.nextId + 1⟩ hr hrest
        refine ⟨n, st', ?_, ?_⟩
        · rw [runLoop, if_neg hdup, ← hdoc]
          show (match insert_one doc now st with
            | .error e => .error e
            | .ok (Option.none, st2) =>
                runLoop repo_id cleanedOf outcomeOf now rest num st2
            | .ok (some _, st2) =>
                runLoop repo_id cleanedOf outcomeOf now rest (num + 1) st2) =
            Except.ok (n, st')
          rw [hins]
          exact hrun
        · simp at hlen
          omega

/-- Claim C9: for a valid platform tag, `run_once` returns (without an
exception, given truthy repo and issue identifiers) the count of newly
inserted records: the number of issues whose `insert_one` returned a
generated identifier, which equals the growth of the persisted row count;
already-stored issues are skipped and not counted. -/
theorem run_once_returns_insert_count (platform : String) (repo_id : PyVal)
    (issues : List PyDict) (cleanedOf : PyDict → String)
    (outcomeOf : PyDict → ModelOutcome) (now : Nat) (st : DBState) :
    (platform = "github" ∨ platform = "gitee" ∨ platform = "gitlab") →
    repo_id.truthy = true →
    (∀ issue ∈ issues, (pyGet1 issue "issue_id").truthy = true) →
    ∃ n st', run_once platform repo_id issues cleanedOf outcomeOf now st =
        some (.ok (n, st')) ∧
      n + st.rows.length = st'.rows.length := by
  intro hp hr hall
  obtain ⟨n, st', hrun, hlen⟩ :=
    runLoop_count repo_id cleanedOf outcomeOf now issues 0 st hr hall
  refine ⟨n, st', ?_, by omega⟩
  unfold run_once
  rw [if_pos (by rcases hp with h | h | h <;> simp [h])]
  rw [hrun]

/-- Witness for C9: one fresh issue on an empty store for the github tag —
the run reports one new record and one row was added. -/
theorem run_once_returns_insert_count_witness :
    ∃ n st', run_once "github" (PyVal.str "r1")
        [[("issue_id", PyVal.str "7"), ("title", PyVal.str "t")]]
        (fun _ => "text") (fun _ => ModelOutcome.otherFail) 4 ⟨[], 0⟩ =
      some (.ok (n, st')) ∧ n + 0 = st'.rows.length := by
  have h := run_once_returns_insert_count "github" (PyVal.str "r1")
    [[("issue_id", PyVal.str "7"), ("title", PyVal.str "t")]]
    (fun _ => "text") (fun _ => ModelOutcome.otherFail) 4 ⟨[], 0⟩
    (Or.inl rfl) rfl (by intro issue hmem; rw [List.mem_singleton.mp hmem]; rfl)
  simpa using h

end DefectCollector

namespace DefectCollector

/-! ## Pagination lemmas -/

/-- The `while True` loop stops exactly at the first empty page: if pages
`p, …, p+n-1` are non-empty and page `p+n` is empty, any fuel above `n`
yields the concatenation of the processed non-empty pages — the result
does not depend on the fuel, i.e. the loop has no bound of its own. -/
theorem paginateLoop_first_empty (proc : List RawItem → List GIssue)
    (pages : Nat → List RawItem) :
    ∀ (n fuel p : Nat) (acc : List GIssue),
      (∀ j, j < n → (pages (p + j)).isEmpty = false) →
      (pages (p + n)).isEmpty = true →
      n < fuel →
      paginateLoop proc pages fuel p acc =
        some (acc ++ joinPages proc pages p n) := by
  intro n
  induction n with
  | zero =>
      intro fuel p acc _ hempty hfuel
      obtain ⟨f, rfl⟩ : ∃ f, fuel = f + 1 :=
        ⟨fuel - 1, by omega⟩
      rw [paginateLoop, if_pos (by simpa using hempty)]
      simp [joinPages]
  | succ n ih =>
      intro fuel p acc hne hempty hfuel
      obtain ⟨f, rfl⟩ : ∃ f, fuel = f + 1 := ⟨fuel - 1, by omega⟩
      rw [paginateLoop,
        if_neg (by simpa using hne 0 (Nat.succ_pos n))]
      rw [ih f (p + 1) (acc ++ proc (pages p))
        (fun j hj => by
          have := hne (j + 1) (by omega)
          simpa [Nat.add_assoc, Nat.add_comm 1 j] using this)
        (by
          have : p + (n + 1) = p + 1 + n := by omega
          rwa [this] at hempty)
        (by omega)]
      rw [joinPages, List.append_assoc]

/-- Every element of the loop's result is either from the accumulator or
from the processing of some fetched page. -/
theorem paginateLoop_mem (proc : List RawItem → List GIssue)
    (pages : Nat → List RawItem) :
    ∀ (fuel p : Nat) (acc out : List GIssue),
      paginateLoop proc pages fuel p acc = some out →
      ∀ x ∈ out, x ∈ acc ∨ ∃ q, x ∈ proc (pages q) := by
  intro fuel
  induction fuel with
  | zero => intro p acc out h; cases h
  | succ f ih =>
      intro p acc out h x hx
      rw [paginateLoop] at h
      by_cases he : (pages p).isEmpty = true
      · rw [if_pos he] at h
        injection h with h
        subst h
        exact Or.inl hx
      · rw [if_neg he] at h
        rcases ih (p + 1) _ out h x hx with hmem | hq
        · rcases List.mem_append.mp hmem with h1 | h1
          · exact Or.inl h1
          · exact Or.inr ⟨p, h1⟩
        · exact Or.inr hq

end DefectCollector

namespace DefectCollector

/-! ## Claim C4: pagination terminates at the first empty page -/

/-- A concrete non-PR upstream item for the pagination counterexample. -/
def itemPg1 : RawItem :=
  { is_pr := false, number := 1, iid := 1, gid := 101, title := "a",
    body := some "b1", created := 10, updated := 11, state := "open",
    url := "u1" }

/-- A second concrete non-PR upstream item, on page 2. -/
def itemPg2 : RawItem :=
  { is_pr := false, number := 2, iid := 2, gid := 102, title := "c",
    body := some "b2", created := 20, updated := 21, state := "open",
    url := "u2" }

/-- A concrete upstream with two non-empty pages; the first empty page is
page 3. -/
def pagesTwo : Nat → List RawItem :=
  fun p => if p = 1 then [itemPg1] else if p = 2 then [itemPg2] else []

/-- Claim C4 (counterexample): the GitHub-like collector issues a single
request and does not paginate.  Against an upstream whose first empty
page is page 3, paginating until the first empty page would also process
page 2, but `GithubCollector.fetch_recent` returns only the items of its
single (first-page) response. -/
theorem github_no_pagination_cx :
    (pagesTwo 1).isEmpty = false ∧ (pagesTwo 2).isEmpty = false ∧
    (pagesTwo 3).isEmpty = true ∧
    githubFetchRecent (pagesTwo 1) Option.none ≠
      joinPages (fun items => githubFetchRecent items Option.none)
        pagesTwo 1 2 := by
  refine ⟨rfl, rfl, rfl, ?_⟩
  decide

/-- Claim C4 (amended): the Gitee-like and GitLab-like collectors paginate
from page 1 and terminate the first time a fetched page is empty,
regardless of the page number and independently of any fuel bound (no
other page-count bound); the GitHub-like collector issues a single page
request, and its result is exactly the processing of that one page no
matter how many further non-empty pages the upstream has. -/
theorem collectors_pagination (pages : Nat → List RawItem)
    (since untl : Option Int) (owner repo : String) (untl2 : Option Int)
    (k fuel : Nat)
    (hne : ∀ j, j < k → (pages (1 + j)).isEmpty = false)
    (hempty : (pages (1 + k)).isEmpty = true)
    (hfuel : k < fuel) :
    giteeFetchRecent pages since untl fuel =
      some (joinPages (giteeProcPage since untl) pages 1 k) ∧
    gitlabFetchRecent pages owner repo fuel =
      some (joinPages (gitlabProcPage owner repo) pages 1 k) ∧
    githubFetchRecent (pages 1) untl2 =
      joinPages (fun items => githubFetchRecent items untl2) pages 1 1 := by
  refine ⟨?_, ?_, ?_⟩
  · have := paginateLoop_first_empty (giteeProcPage since untl) pages
      k fuel 1 [] hne hempty hfuel
    simpa [giteeFetchRecent] using this
  · have := paginateLoop_first_empty (gitlabProcPage owner repo) pages
      k fuel 1 [] hne hempty hfuel
    simpa [gitlabFetchRecent] using this
  · rw [joinPages, joinPages, List.append_nil]

/-- Witness for C4 (amended) on the two-page upstream with fuel 5. -/
theorem collectors_pagination_witness :
    giteeFetchRecent pagesTwo Option.none Option.none 5 =
      some (joinPages (giteeProcPage Option.none Option.none) pagesTwo 1 2) ∧
    gitlabFetchRecent pagesTwo "o" "r" 5 =
      some (joinPages (gitlabProcPage "o" "r") pagesTwo 1 2) ∧
    githubFetchRecent (pagesTwo 1) Option.none =
      joinPages (fun items => githubFetchRecent items Option.none)
        pagesTwo 1 1 := by
  exact collectors_pagination pagesTwo Option.none Option.none "o" "r"
    Option.none 2 5 (by decide) (by decide) (by decide)

end DefectCollector

namespace DefectCollector

/-! ## Claim C5: the time window of returned issues -/

/-- Per-page bound for the Gitee collector: every produced issue respects
the client-side `since`/`until` checks. -/
theorem giteeProcPage_bounds (since untl : Option Int)
    (items : List RawItem) (x : GIssue)
    (hx : x ∈ giteeProcPage since untl items) :
    (∀ s, since = some s → s ≤ x.created) ∧
    (∀ u, untl = some u → x.created ≤ u) := by
  unfold giteeProcPage at hx
  obtain ⟨it, hit, hf⟩ := List.mem_filterMap.mp hx
  by_cases hpr : it.is_pr = true
  · rw [if_pos hpr] at hf; cases hf
  · rw [if_neg hpr] at hf
    by_cases hs : beforeSince since it.created = true
    · rw [if_pos hs] at hf; cases hf
    · rw [if_neg hs] at hf
      by_cases hu : afterUntil untl it.created = true
      · rw [if_pos hu] at hf; cases hf
      · rw [if_neg hu] at hf
        injection hf with hf
        subst hf
        constructor
        · intro s hs2
          subst hs2
          simp only [beforeSince, decide_eq_true_eq] at hs
          show s ≤ it.created
          omega
        · intro u hu2
          subst hu2
          simp only [afterUntil, decide_eq_true_eq] at hu
          show it.created ≤ u
          omega

/-- Claim C5: for every collector variant, every returned issue satisfies
`since ≤ created_at ≤ until` when both bounds are supplied, and
`since ≤ created_at` when only the lower bound is supplied.  For the
GitHub-like variant the lower bound is enforced server-side (hypothesis
`hserver` on the response, per spec §4.1) and the upper bound client-side;
the Gitee-like variant checks both bounds client-side; the GitLab-like
variant passes each supplied bound to the server as `created_after` /
`created_before` (hypothesis `hserver` on every page: both bounds, or
only the lower one when `until` is omitted). -/
theorem collectors_time_window :
    (∀ (resp : List RawItem) (s u : Int),
       (∀ it ∈ resp, s ≤ it.created) →
       (∀ x ∈ githubFetchRecent resp (some u),
          s ≤ x.created ∧ x.created ≤ u) ∧
       (∀ x ∈ githubFetchRecent resp Option.none, s ≤ x.created)) ∧
    (∀ (pages : Nat → List RawItem) (s u : Int) (fuel : Nat)
       (out : List GIssue),
       giteeFetchRecent pages (some s) (some u) fuel = some out →
       ∀ x ∈ out, s ≤ x.created ∧ x.created ≤ u) ∧
    (∀ (pages : Nat → List RawItem) (s : Int) (fuel : Nat)
       (out : List GIssue),
       giteeFetchRecent pages (some s) Option.none fuel = some out →
       ∀ x ∈ out, s ≤ x.created) ∧
    (∀ (pages : Nat → List RawItem) (owner repo : String) (s u : Int)
       (fuel : Nat) (out : List GIssue),
       (∀ (q : Nat), ∀ it ∈ pages q, s ≤ it.created ∧ it.created ≤ u) →
       gitlabFetchRecent pages owner repo fuel = some out →
       ∀ x ∈ out, s ≤ x.created ∧ x.created ≤ u) ∧
    (∀ (pages : Nat → List RawItem) (owner repo : String) (s : Int)
       (fuel : Nat) (out : List GIssue),
       (∀ (q : Nat), ∀ it ∈ pages q, s ≤ it.created) →
       gitlabFetchRecent pages owner repo fuel = some out →
       ∀ x ∈ out, s ≤ x.created) := by
  refine ⟨?_, ?_, ?_, ?_, ?_⟩
  · intro resp s u hserver
    constructor
    · intro x hx
      unfold githubFetchRecent at hx
      obtain ⟨it, hit, hf⟩ := List.mem_filterMap.mp hx
      by_cases hpr : it.is_pr = true
      · rw [if_pos hpr] at hf; cases hf
      · rw [if_neg hpr] at hf
        by_cases hu : afterUntil (some u) it.created = true
        · rw [if_pos hu] at hf; cases hf
        · rw [if_neg hu] at hf
          injection hf with hf
          subst hf
          simp only [afterUntil, decide_eq_true_eq] at hu
          exact ⟨hserver it hit, show it.created ≤ u by omega⟩
    · intro x hx
      unfold githubFetchRecent at hx
      obtain ⟨it, hit, hf⟩ := List.mem_filterMap.mp hx
      by_cases hpr : it.is_pr = true
      · rw [if_pos hpr] at hf; cases hf
      · rw [if_neg hpr] at hf
        rw [show afterUntil Option.none it.created = false from rfl] at hf
        rw [if_neg (by simp)] at hf
        injection hf with hf
        subst hf
        exact hserver it hit
  · intro pages s u fuel out hout x hx
    rcases paginateLoop_mem _ pages fuel 1 [] out hout x hx with h | ⟨q, hq⟩
    · cases h
    · have := giteeProcPage_bounds (some s) (some u) (pages q) x hq
      exact ⟨this.1 s rfl, this.2 u rfl⟩
  · intro pages s fuel out hout x hx
    rcases paginateLoop_mem _ pages fuel 1 [] out hout x hx with h | ⟨q, hq⟩
    · cases h
    · exact (giteeProcPage_bounds (some s) Option.none (pages q) x hq).1 s rfl
  · intro pages owner repo s u fuel out hserver hout x hx
    rcases paginateLoop_mem _ pages fuel 1 [] out hout x hx with h | ⟨q, hq⟩
    · cases h
    · unfold gitlabProcPage at hq
      obtain ⟨it, hit, hf⟩ := List.mem_map.mp hq
      have := hserver q it hit
      rw [← hf]
      exact this
  · intro pages owner repo s fuel out hserver hout x hx
    rcases paginateLoop_mem _ pages fuel 1 [] out hout x hx with h | ⟨q, hq⟩
    · cases h
    · unfold gitlabProcPage at hq
      obtain ⟨it, hit, hf⟩ := List.mem_map.mp hq
      have := hserver q it hit
      rw [← hf]
      exact this

/-- The two-page upstream's items all carry created times in `[5, 25]`
(they are 10 and 20): the spec-modelled server-side filter hypotheses of
the GitHub and GitLab clauses hold for these bounds. -/
theorem pagesTwo_created_bounds (q : Nat) :
    ∀ it ∈ pagesTwo q, (5 : Int) ≤ it.created ∧ it.created ≤ 25 := by
  intro it hit
  unfold pagesTwo at hit
  by_cases h1 : q = 1
  · rw [if_pos h1] at hit
    rw [List.mem_singleton.mp hit]
    exact ⟨by decide, by decide⟩
  · rw [if_neg h1] at hit
    by_cases h2 : q = 2
    · rw [if_pos h2] at hit
      rw [List.mem_singleton.mp hit]
      exact ⟨by decide, by decide⟩
    · rw [if_neg h2] at hit
      cases hit

/-- Witness for C5: concrete bounds `[5, 25]` around the two-page upstream
(created times 10 and 20); all three collectors observe the window, both
with both bounds and with only the lower bound. -/
theorem collectors_time_window_witness :
    (mkGithubIssue itemPg1 ∈ githubFetchRecent (pagesTwo 1) (some 25) →
      (5 : Int) ≤ (mkGithubIssue itemPg1).created ∧
        (mkGithubIssue itemPg1).created ≤ 25) ∧
    (mkGithubIssue itemPg1 ∈ githubFetchRecent (pagesTwo 1) Option.none →
      (5 : Int) ≤ (mkGithubIssue itemPg1).created) ∧
    (mkGiteeIssue itemPg1 ∈
        (joinPages (giteeProcPage (some 5) (some 25)) pagesTwo 1 2) →
      (5 : Int) ≤ (mkGiteeIssue itemPg1).created ∧
        (mkGiteeIssue itemPg1).created ≤ 25) ∧
    (mkGiteeIssue itemPg1 ∈
        (joinPages (giteeProcPage (some 5) Option.none) pagesTwo 1 2) →
      (5 : Int) ≤ (mkGiteeIssue itemPg1).created) ∧
    (mkGitlabIssue "o" "r" itemPg2 ∈
        (joinPages (gitlabProcPage "o" "r") pagesTwo 1 2) →
      (5 : Int) ≤ (mkGitlabIssue "o" "r" itemPg2).created ∧
        (mkGitlabIssue "o" "r" itemPg2).created ≤ 25) ∧
    (mkGitlabIssue "o" "r" itemPg2 ∈
        (joinPages (gitlabProcPage "o" "r") pagesTwo 1 2) →
      (5 : Int) ≤ (mkGitlabIssue "o" "r" itemPg2).created) := by
  have hgl : gitlabFetchRecent pagesTwo "o" "r" 5 =
      some (joinPages (gitlabProcPage "o" "r") pagesTwo 1 2) := by
    decide
  refine ⟨?_, ?_, ?_, ?_, ?_, ?_⟩
  · intro hx
    exact ((collectors_time_window.1 (pagesTwo 1) 5 25
      (by decide)).1 (mkGithubIssue itemPg1) hx)
  · intro hx
    exact ((collectors_time_window.1 (pagesTwo 1) 5 25
      (by decide)).2 (mkGithubIssue itemPg1) hx)
  · intro hx
    have hloop : giteeFetchRecent pagesTwo (some 5) (some 25) 5 =
        some (joinPages (giteeProcPage (some 5) (some 25)) pagesTwo 1 2) := by
      decide
    exact collectors_time_window.2.1 pagesTwo 5 25 5 _ hloop
      (mkGiteeIssue itemPg1) hx
  · intro hx
    have hloop : giteeFetchRecent pagesTwo (some 5) Option.none 5 =
        some (joinPages (giteeProcPage (some 5) Option.none) pagesTwo 1 2) := by
      decide
    exact collectors_time_window.2.2.1 pagesTwo 5 5 _ hloop
      (mkGiteeIssue itemPg1) hx
  · intro hx
    exact collectors_time_window.2.2.2.1 pagesTwo "o" "r" 5 25 5 _
      pagesTwo_created_bounds hgl (mkGitlabIssue "o" "r" itemPg2) hx
  · intro hx
    exact collectors_time_window.2.2.2.2 pagesTwo "o" "r" 5 5 _
      (fun q it hit => (pagesTwo_created_bounds q it hit).1) hgl
      (mkGitlabIssue "o" "r" itemPg2) hx

/-! ## Claim C6: exclusion of pull/merge requests -/

/-- A concrete upstream item flagged as a pull/merge request. -/
def itemPr : RawItem :=
  { is_pr := true, number := 9, iid := 9, gid := 109, title := "mr",
    body := some "pr body", created := 15, updated := 16, state := "open",
    url := "u9" }

/-- A one-page upstream whose only item is flagged as a pull request. -/
def pagesPr : Nat → List RawItem :=
  fun p => if p = 1 then [itemPr] else []

/-- Claim C6 (counterexample): `GitLabCollector.fetch_recent` has no
pull/merge-request check — an upstream item flagged as one appears in its
output. -/
theorem gitlab_pr_not_filtered_cx :
    itemPr.is_pr = true ∧
    gitlabFetchRecent pagesPr "o" "r" 5 =
      some [mkGitlabIssue "o" "r" itemPr] := by
  constructor
  · rfl
  · have := paginateLoop_first_empty (gitlabProcPage "o" "r") pagesPr
      1 5 1 [] (by decide) (by decide) (by decide)
    simpa [gitlabFetchRecent, joinPages, gitlabProcPage, pagesPr] using this

/-- Claim C6 (amended): the GitHub-like and Gitee-like collectors never
return an item flagged as a pull/merge request — every output element
arises from an unflagged upstream item; the GitLab-like collector applies
no such filter and maps every item of every processed page into its
output. -/
theorem collectors_pr_exclusion :
    (∀ (resp : List RawItem) (untl : Option Int) (x : GIssue),
       x ∈ githubFetchRecent resp untl →
       ∃ it ∈ resp, it.is_pr = false ∧ x = mkGithubIssue it) ∧
    (∀ (pages : Nat → List RawItem) (since untl : Option Int) (fuel : Nat)
       (out : List GIssue),
       giteeFetchRecent pages since untl fuel = some out →
       ∀ x ∈ out, ∃ q, ∃ it ∈ pages q, it.is_pr = false ∧
         x = mkGiteeIssue it) ∧
    (∀ (owner repo : String) (items : List RawItem), ∀ it ∈ items,
       mkGitlabIssue owner repo it ∈ gitlabProcPage owner repo items) := by
  refine ⟨?_, ?_, ?_⟩
  · intro resp untl x hx
    unfold githubFetchRecent at hx
    obtain ⟨it, hit, hf⟩ := List.mem_filterMap.mp hx
    by_cases hpr : it.is_pr = true
    · rw [if_pos hpr] at hf; cases hf
    · refine ⟨it, hit, by simpa using hpr, ?_⟩
      rw [if_neg hpr] at hf
      by_cases hu : afterUntil untl it.created = true
      · rw [if_pos hu] at hf; cases hf
      · rw [if_neg hu] at hf
        exact (Option.some.inj hf).symm
  · intro pages since untl fuel out hout x hx
    rcases paginateLoop_mem _ pages fuel 1 [] out hout x hx with h | ⟨q, hq⟩
    · cases h
    · unfold giteeProcPage at hq
      obtain ⟨it, hit, hf⟩ := List.mem_filterMap.mp hq
      by_cases hpr : it.is_pr = true
      · rw [if_pos hpr] at hf; cases hf
      · refine ⟨q, it, hit, by simpa using hpr, ?_⟩
        rw [if_neg hpr] at hf
        by_cases hs : beforeSince since it.created = true
        · rw [if_pos hs] at hf; cases hf
        · rw [if_neg hs] at hf
          by_cases hu : afterUntil untl it.created = true
          · rw [if_pos hu] at hf; cases hf
          · rw [if_neg hu] at hf
            exact (Option.some.inj hf).symm
  · intro owner repo items it hit
    unfold gitlabProcPage
    exact List.mem_map_of_mem _ hit

/-- Witness for C6 (amended): the non-PR item of a mixed page is traced
back to an unflagged upstream item by the GitHub clause, and the GitLab
clause maps the flagged item through. -/
theorem collectors_pr_exclusion_witness :
    (∃ it ∈ [itemPr, itemPg1], it.is_pr = false ∧
      mkGithubIssue itemPg1 = mkGithubIssue it) ∧
    mkGitlabIssue "o" "r" itemPr ∈ gitlabProcPage "o" "r" [itemPr] := by
  constructor
  · exact collectors_pr_exclusion.1 [itemPr, itemPg1] Option.none
      (mkGithubIssue itemPg1) (by decide)
  · exact collectors_pr_exclusion.2.2 "o" "r" [itemPr] itemPr
      (List.mem_singleton_self _)

end DefectCollector

namespace DefectCollector

/-! ## Claim C8: idempotence of `normalize_text` -/

/-- Claim C8 (counterexample): `normalize_text` is NOT idempotent.  The
trailing-punctuation strip (`[^\w\s]+$`) runs before whitespace is
collapsed and stripped, so for `"a? "` the `?` is not at the end of the
string on the first pass and survives it; the final strip then exposes it,
and a second pass removes it: `normalize_text "a? " = "a?"` but
`normalize_text "a?" = "a"`. -/
theorem normalize_text_not_idempotent_cx :
    normalize_text "a? " = "a?" ∧
    normalize_text (normalize_text "a? ") = "a" ∧
    normalize_text (normalize_text "a? ") ≠ normalize_text "a? " := by
  refine ⟨by decide, by decide, by decide⟩

/-- Bound on the code points of the whitespace class. -/
theorem isPySpace_toNat_le (c : Char) (h : isPySpace c = true) :
    c.toNat ≤ 32 := by
  simp only [isPySpace, Bool.or_eq_true, beq_iff_eq] at h
  rcases h with ((((h | h) | h) | h) | h) | h <;> subst h <;> decide

/-- `Char.toNat` respects `Char.ofNat` on valid scalar values. -/
theorem toNat_ofNat_valid (n : Nat) (h : n < 55296) :
    (Char.ofNat n).toNat = n := by
  unfold Char.ofNat
  rw [dif_pos (Or.inl h)]
  simp [Char.ofNatAux, Char.toNat, UInt32.toNat]

/-- `Char.toLower` either fixes its argument or shifts an ASCII capital
by 32. -/
theorem toLower_eq_or (c : Char) :
    Char.toLower c = c ∨
    (65 ≤ c.toNat ∧ c.toNat ≤ 90 ∧ (Char.toLower c).toNat = c.toNat + 32) := by
  unfold Char.toLower
  by_cases h : c.toNat ≥ 65 ∧ c.toNat ≤ 90
  · right
    rw [if_pos h]
    exact ⟨h.1, h.2, toNat_ofNat_valid _ (by omega)⟩
  · left
    rw [if_neg h]

/-- A character outside the ASCII capital range is fixed by
`Char.toLower`. -/
theorem toLower_eq_self_of_not_upper (c : Char)
    (h : ¬(65 ≤ c.toNat ∧ c.toNat ≤ 90)) : Char.toLower c = c := by
  unfold Char.toLower
  rw [if_neg (by omega)]

/-- `Char.toLower` is idempotent. -/
theorem toLower_idem (c : Char) :
    Char.toLower (Char.toLower c) = Char.toLower c := by
  rcases toLower_eq_or c with h | ⟨h1, h2, h3⟩
  · rw [h]
    exact h
  · exact toLower_eq_self_of_not_upper _ (by omega)

/-- Lowercasing cannot create whitespace. -/
theorem isPySpace_toLower (c : Char)
    (h : isPySpace (Char.toLower c) = true) : isPySpace c = true := by
  rcases toLower_eq_or c with he | ⟨_, _, he⟩
  · rwa [he] at h
  · have := isPySpace_toNat_le _ h
    omega

/-- `collapsePunct` only ever removes characters. -/
theorem mem_collapsePunct :
    ∀ (l : List Char) (c : Char), c ∈ collapsePunct l → c ∈ l := by
  intro l
  induction l with
  | nil => intro c hc; cases hc
  | cons a rest ih =>
      intro c hc
      cases rest with
      | nil => simpa [collapsePunct] using hc
      | cons b t =>
          rw [collapsePunct] at hc
          by_cases hp : (isPunctCls a && isPunctCls b) = true
          · rw [if_pos hp] at hc
            exact List.mem_cons_of_mem _ (ih c hc)
          · rw [if_neg hp] at hc
            rcases List.mem_cons.mp hc with hc | hc
            · exact hc ▸ List.mem_cons_self _ _
            · exact List.mem_cons_of_mem _ (ih c hc)

/-- `collapseWs` is the identity on whitespace-free lists. -/
theorem collapseWs_id :
    ∀ l : List Char, (∀ c ∈ l, isPySpace c = false) → collapseWs l = l := by
  intro l
  induction l with
  | nil => intro _; rfl
  | cons a rest ih =>
      intro h
      cases rest with
      | nil =>
          rw [collapseWs, if_neg (by simp [h a (List.mem_cons_self _ _)])]
      | cons b t =>
          rw [collapseWs,
            if_neg (by simp [h a (List.mem_cons_self _ _)]),
            if_neg (by simp [h a (List.mem_cons_self _ _)])]
          rw [ih (fun c hc => h c (List.mem_cons_of_mem _ hc))]

/-- `dropWhile` is the identity when no element satisfies the predicate. -/
theorem dropWhile_id_of_all_false (p : Char → Bool) (l : List Char)
    (h : ∀ c ∈ l, p c = false) : l.dropWhile p = l := by
  cases l with
  | nil => rfl
  | cons a t =>
      rw [List.dropWhile_cons, if_neg (by simp [h a (List.mem_cons_self _ _)])]

/-- `pyStripL` is the identity on whitespace-free lists. -/
theorem pyStripL_id (l : List Char) (h : ∀ c ∈ l, isPySpace c = false) :
    pyStripL l = l := by
  unfold pyStripL
  rw [dropWhile_id_of_all_false _ _ h,
    dropWhile_id_of_all_false _ _ (fun c hc => h c (by simpa using hc)),
    List.reverse_reverse]

/-- A map whose function fixes every element of the list is the
identity. -/
theorem map_id_of_fix (f : Char → Char) :
    ∀ l : List Char, (∀ c ∈ l, f c = c) → l.map f = l := by
  intro l
  induction l with
  | nil => intro _; rfl
  | cons a t ih =>
      intro h
      rw [List.map_cons, h a (List.mem_cons_self _ _),
        ih (fun c hc => h c (List.mem_cons_of_mem _ hc))]

/-- No two adjacent characters of the punctuation class. -/
def noAdjP : List Char → Bool
  | [] => true
  | [_] => true
  | c :: d :: rest => !(isPunctCls c && isPunctCls d) && noAdjP (d :: rest)

/-- The head of `collapsePunct (d :: rest)` is `d` itself or, when `d` is
in the class, another class character. -/
theorem collapsePunct_head :
    ∀ (d : Char) (rest : List Char) (h : Char) (t : List Char),
      collapsePunct (d :: rest) = h :: t →
      h = d ∨ (isPunctCls d = true ∧ isPunctCls h = true) := by
  intro d rest
  induction rest generalizing d with
  | nil =>
      intro h t hc
      rw [collapsePunct] at hc
      exact Or.inl (List.cons.inj hc).1.symm
  | cons b t2 ih =>
      intro h t hc
      rw [collapsePunct] at hc
      by_cases hp : (isPunctCls d && isPunctCls b) = true
      · rw [if_pos hp] at hc
        have hpd : isPunctCls d = true ∧ isPunctCls b = true := by
          simpa using hp
        rcases ih b h t hc with he | ⟨_, h2⟩
        · exact Or.inr ⟨hpd.1, he ▸ hpd.2⟩
        · exact Or.inr ⟨hpd.1, h2⟩
      · rw [if_neg hp] at hc
        exact Or.inl (List.cons.inj hc).1.symm

/-- `collapsePunct` leaves no adjacent class pair. -/
theorem noAdjP_collapsePunct :
    ∀ l : List Char, noAdjP (collapsePunct l) = true := by
  intro l
  induction l with
  | nil => rfl
  | cons a rest ih =>
      cases rest with
      | nil => rfl
      | cons b t =>
          rw [collapsePunct]
          by_cases hp : (isPunctCls a && isPunctCls b) = true
          · rw [if_pos hp]
            exact ih
          · rw [if_neg hp]
            cases hc : collapsePunct (b :: t) with
            | nil => rfl
            | cons h0 t0 =>
                have hnadj : noAdjP (h0 :: t0) = true := hc ▸ ih
                rw [noAdjP]
                by_cases hA : isPunctCls a = true
                · have hB : isPunctCls b = false := by
                    simpa [hA] using hp
                  have hH : isPunctCls h0 = false := by
                    rcases collapsePunct_head b t h0 t0 hc with he | ⟨hbp, _⟩
                    · rwa [he]
                    · rw [hbp] at hB
                      cases hB
                  simp [hA, hH, hnadj]
                · have hA2 : isPunctCls a = false := by simpa using hA
                  simp [hA2, hnadj]

/-- `noAdjP` passes to the tail. -/
theorem noAdjP_tail (a : Char) (l : List Char)
    (h : noAdjP (a :: l) = true) : noAdjP l = true := by
  cases l with
  | nil => rfl
  | cons b t =>
      rw [noAdjP] at h
      exact (Bool.and_eq_true_iff.mp h).2

/-- `noAdjP` restricts to prefixes. -/
theorem noAdjP_append_left :
    ∀ (l1 l2 : List Char), noAdjP (l1 ++ l2) = true → noAdjP l1 = true := by
  intro l1
  induction l1 with
  | nil => intro _ _; rfl
  | cons a t ih =>
      intro l2 h
      cases t with
      | nil => rfl
      | cons b t2 =>
          rw [List.cons_append, List.cons_append, noAdjP] at h
          have h2 := Bool.and_eq_true_iff.mp h
          rw [noAdjP, Bool.and_eq_true_iff]
          exact ⟨h2.1, ih l2 (by simpa using h2.2)⟩

/-- `noAdjP` restricts to suffixes. -/
theorem noAdjP_append_right :
    ∀ (l1 l2 : List Char), noAdjP (l1 ++ l2) = true → noAdjP l2 = true := by
  intro l1
  induction l1 with
  | nil => intro l2 h; simpa using h
  | cons a t ih =>
      intro l2 h
      exact ih l2 (noAdjP_tail a (t ++ l2) (by simpa using h))

/-- `noAdjP` survives `collapsePunct`'s later pipeline stages: it holds
for any prefix of a suffix. -/
theorem noAdjP_infix (l m r : List Char)
    (h : noAdjP (l ++ m ++ r) = true) : noAdjP m = true :=
  noAdjP_append_left m r (noAdjP_append_right l (m ++ r) (by simpa using h))

/-- A list with no adjacent class pair is fixed by `collapsePunct`. -/
theorem collapsePunct_id :
    ∀ l : List Char, noAdjP l = true → collapsePunct l = l := by
  intro l
  induction l with
  | nil => intro _; rfl
  | cons a t ih =>
      intro h
      cases t with
      | nil => rfl
      | cons b t2 =>
          rw [noAdjP, Bool.and_eq_true_iff] at h
          rw [collapsePunct, if_neg (by
            intro hab
            rcases (by simpa using h.1 : isPunctCls a = false ∨
              isPunctCls b = false) with hf | hf <;>
              simp [hf] at hab), ih h.2]

/-- The head surviving `dropWhile` fails the predicate. -/
theorem dropWhile_head_false (p : Char → Bool) :
    ∀ (l : List Char) (c : Char) (t : List Char),
      l.dropWhile p = c :: t → p c = false := by
  intro l
  induction l with
  | nil => intro c t h; cases h
  | cons a r ih =>
      intro c t h
      rw [List.dropWhile_cons] at h
      by_cases ha : p a = true
      · rw [if_pos ha] at h
        exact ih c t h
      · rw [if_neg ha] at h
        rw [← (List.cons.inj h).1]
        simpa using ha

/-- `dropWhile` is idempotent. -/
theorem dropWhile_idem (p : Char → Bool) (l : List Char) :
    (l.dropWhile p).dropWhile p = l.dropWhile p := by
  cases h : l.dropWhile p with
  | nil => rfl
  | cons c t =>
      rw [List.dropWhile_cons, if_neg (by simp [dropWhile_head_false p l c t h])]

/-- `dropTrailNWS l` is a prefix of `l`. -/
theorem dropTrailNWS_prefix (l : List Char) :
    ∃ l2, dropTrailNWS l ++ l2 = l := by
  refine ⟨(l.reverse.takeWhile isNWS).reverse, ?_⟩
  unfold dropTrailNWS
  rw [← List.reverse_append, List.takeWhile_append_dropWhile,
    List.reverse_reverse]

/-- `dropTrailNWS` only ever removes characters. -/
theorem mem_dropTrailNWS (l : List Char) (c : Char)
    (h : c ∈ dropTrailNWS l) : c ∈ l := by
  obtain ⟨l2, hl⟩ := dropTrailNWS_prefix l
  rw [← hl]
  exact List.mem_append_left _ h

/-- `dropTrailNWS` is idempotent. -/
theorem dropTrailNWS_idem (l : List Char) :
    dropTrailNWS (dropTrailNWS l) = dropTrailNWS l := by
  unfold dropTrailNWS
  rw [List.reverse_reverse, dropWhile_idem]

/-- A whitespace-free list cannot end with a newline. -/
theorem getLast_beq_nl_false (l : List Char)
    (h : ∀ c ∈ l, isPySpace c = false) :
    (l.getLast? == some '\n') = false := by
  cases hl : l.getLast? with
  | none => rfl
  | some c =>
      have hc : c ∈ l := List.mem_of_mem_getLast? hl
      have : c ≠ '\n' := by
        intro he
        subst he
        cases (h '\n' hc).symm.trans (by rfl : isPySpace '\n' = true)
      simpa using this

/-- On whitespace-free input, `stripAnchored` is the leading-run drop
followed by the trailing-run drop (the before-final-newline case of `$`
cannot fire). -/
theorem stripAnchored_of_no_space (l : List Char)
    (h : ∀ c ∈ l, isPySpace c = false) :
    stripAnchored l = dropTrailNWS (l.dropWhile isNWS) := by
  unfold stripAnchored
  rw [if_neg ?_]
  rw [Bool.not_eq_true]
  apply getLast_beq_nl_false
  intro c hc
  exact h c ((List.dropWhile_sublist isNWS).mem hc)

/-- On whitespace-free input the whole `normalize_text` pipeline reduces
to lowercase, punctuation collapse, leading drop, trailing drop. -/
theorem normalize_data_of_no_space (s : String)
    (h : ∀ c ∈ s.data, isPySpace c = false) :
    (normalize_text s).data =
      dropTrailNWS ((collapsePunct (s.data.map Char.toLower)).dropWhile
        isNWS) := by
  have hm : ∀ c ∈ s.data.map Char.toLower, isPySpace c = false := by
    intro c hc
    obtain ⟨c0, hc0, he⟩ := List.mem_map.mp hc
    subst he
    by_cases hsp : isPySpace (Char.toLower c0) = true
    · exact absurd (isPySpace_toLower c0 hsp) (by simp [h c0 hc0])
    · simpa using hsp
  have hcp : ∀ c ∈ collapsePunct (s.data.map Char.toLower),
      isPySpace c = false :=
    fun c hc => hm c (mem_collapsePunct _ c hc)
  have hX : ∀ c ∈ dropTrailNWS ((collapsePunct (s.data.map
      Char.toLower)).dropWhile isNWS), isPySpace c = false := by
    intro c hc
    exact hcp c ((List.dropWhile_sublist isNWS).mem (mem_dropTrailNWS _ c hc))
  by_cases hs : s == ""
  · have hs2 : s = "" := by simpa using hs
    subst hs2
    rfl
  · unfold normalize_text
    rw [if_neg (by simpa using hs)]
    show pyStripL (collapseWs (stripAnchored (collapsePunct
      (s.data.map Char.toLower)))) = _
    rw [stripAnchored_of_no_space _ hcp, collapseWs_id _ hX, pyStripL_id _ hX]

/-- Claim C8 (amended): `normalize_text` is idempotent on whitespace-free
input: the only failure mode of idempotence is trailing (or leading)
punctuation separated from the string end by whitespace, which the
first pass keeps (the anchored strip runs before whitespace collapsing)
and a second pass removes. -/
theorem normalize_text_idem_of_no_space (s : String)
    (h : ∀ c ∈ s.data, isPySpace c = false) :
    normalize_text (normalize_text s) = normalize_text s := by
  have hdata := normalize_data_of_no_space s h
  set m := s.data.map Char.toLower with hm
  set W := (collapsePunct m).dropWhile isNWS with hW
  set X := dropTrailNWS W with hX
  -- characters of X
  have hXcp : ∀ c ∈ X, c ∈ collapsePunct m := by
    intro c hc
    exact (List.dropWhile_sublist isNWS).mem (mem_dropTrailNWS _ c hc)
  have hXws : ∀ c ∈ X, isPySpace c = false := by
    intro c hc
    have hcm : c ∈ m := mem_collapsePunct _ c (hXcp c hc)
    obtain ⟨c0, hc0, he⟩ := List.mem_map.mp hcm
    subst he
    by_cases hsp : isPySpace (Char.toLower c0) = true
    · exact absurd (isPySpace_toLower c0 hsp) (by simp [h c0 hc0])
    · simpa using hsp
  -- X is lowercase-fixed
  have hXlow : X.map Char.toLower = X := by
    apply map_id_of_fix
    intro c hc
    have hcm : c ∈ m := mem_collapsePunct _ c (hXcp c hc)
    obtain ⟨c0, _, he⟩ := List.mem_map.mp hcm
    subst he
    exact toLower_idem c0
  -- X has no adjacent punctuation pair
  have hXnadj : noAdjP X = true := by
    obtain ⟨l2, hpref⟩ := dropTrailNWS_prefix W
    have hsplit : collapsePunct m =
        (collapsePunct m).takeWhile isNWS ++ (X ++ l2) := by
      rw [hX, hpref, hW, List.takeWhile_append_dropWhile]
    have := noAdjP_collapsePunct m
    rw [hsplit] at this
    exact noAdjP_infix _ X l2 (by simpa using this)
  -- X is fixed by collapsePunct
  have hXcpid : collapsePunct X = X := collapsePunct_id X hXnadj
  -- X is fixed by the leading drop
  have hXdw : X.dropWhile isNWS = X := by
    cases hXc : X with
    | nil => rfl
    | cons c t =>
        obtain ⟨l2, hpref⟩ := dropTrailNWS_prefix W
        have hWc : (collapsePunct m).dropWhile isNWS = c :: (t ++ l2) := by
          rw [← hW, ← hpref, ← hX, hXc]
          rfl
        rw [List.dropWhile_cons,
          if_neg (by simp [dropWhile_head_false isNWS _ _ _ hWc])]
  -- X is fixed by the trailing drop
  have hXdt : dropTrailNWS X = X := by
    rw [hX, dropTrailNWS_idem]
  -- X is fixed by stripAnchored
  have hXanch : stripAnchored X = X := by
    rw [stripAnchored_of_no_space X hXws, hXdw, hXdt]
  -- conclude
  by_cases hy : normalize_text s == ""
  · have hy2 : normalize_text s = "" := by simpa using hy
    rw [hy2]
    rfl
  · have hyX : normalize_text s = String.mk X := by
      have : (normalize_text s).data = X := hdata
      calc normalize_text s = String.mk (normalize_text s).data := rfl
        _ = String.mk X := by rw [this]
    rw [hyX] at hy ⊢
    unfold normalize_text
    rw [if_neg (by simpa using hy)]
    show String.mk (pyStripL (collapseWs (stripAnchored (collapsePunct
      (X.map Char.toLower))))) = String.mk X
    rw [hXlow, hXcpid, hXanch, collapseWs_id _ hXws, pyStripL_id _ hXws]

/-- Witness for C8 (amended): a concrete whitespace-free input. -/
theorem normalize_text_idem_of_no_space_witness :
    normalize_text (normalize_text "Hello??World!") =
      normalize_text "Hello??World!" :=
  normalize_text_idem_of_no_space "Hello??World!" (by decide)

end DefectCollector
